import Mathlib

/-!
Verification development for `django-watermark-images` (`items/processors.py`).

The file embeds the two algorithmic cores of the repository:

* the LSB steganography pipeline `lsb_encode` / `lsb_decode` (pickle
  serialization, numpy bit packing/unpacking, PIL channel arithmetic), and
* the watermark auto-scaling heuristic inside `add_watermark`.

Python byte values are `Nat`s below 256, PIL images are a width, a height and
a list of bands (each band a raster-order list of 8-bit pixel values), Python
exceptions are the `Except` monad, and Python float arithmetic in the scaling
heuristic is modelled as exact rational arithmetic over `ℚ`.
-/

set_option autoImplicit false

namespace WatermarkImages

/-! ### numpy bit packing

`np.unpackbits` / `np.packbits` with the default big-endian bit order:
every byte expands to 8 bits most-significant-bit first, and `packbits`
zero-pads a trailing incomplete group of bits on the right. -/

/-- The 8 bits of a byte, most significant first (`np.unpackbits` on one byte). -/
def byteToBits (b : Nat) : List Nat :=
  [b / 128 % 2, b / 64 % 2, b / 32 % 2, b / 16 % 2, b / 8 % 2, b / 4 % 2, b / 2 % 2, b % 2]

/-- `np.unpackbits` over a byte sequence (big-endian bit order). -/
def unpackbits (bs : List Nat) : List Nat := bs.flatMap byteToBits

/-- Fold 8 bits (most significant first) back into a byte. -/
def bitsToByte (bits : List Nat) : Nat := bits.foldl (fun a b => 2 * a + b) 0

/-- Fuel-driven worker for `packbits`; the fuel is an upper bound on the
number of bits, so `fuel = bits.length` always suffices. -/
def packbitsAux : Nat → List Nat → List Nat
  | _, [] => []
  | 0, _ :: _ => []
  | f + 1, b :: bits =>
      bitsToByte (((b :: bits) ++ List.replicate 8 0).take 8) :: packbitsAux f ((b :: bits).drop 8)

/-- `np.packbits` with big-endian bit order: groups of 8 bits become bytes,
a trailing incomplete group is zero-padded on the right. -/
def packbits (bits : List Nat) : List Nat := packbitsAux bits.length bits

/-! ### CPython pickle, restricted to the opcodes the repository exercises

`lsb_encode` calls `pickle.dump(data, file=bytes_io)` and `lsb_decode` calls
`pickle.load`.  The payloads the repository pickles are `str` values, so the
model covers protocol-3 string pickles: `PROTO 3`, `BINUNICODE`, `BINPUT`,
`NONE` and `STOP`.  A payload string is represented by its UTF-8 byte
sequence.  Error behaviour follows CPython's `_pickle.c`: end of input at an
opcode boundary raises `EOFError` (\"Ran out of input\"), a truncated opcode
argument or an unknown opcode raises `UnpicklingError`, and an unsupported
protocol number raises `ValueError`. -/

/-- Values the modelled unpickler can produce: `None` and `str` (as UTF-8 bytes). -/
inductive PickleValue where
  | noneVal : PickleValue
  | str : List Nat → PickleValue
deriving DecidableEq

/-- Python exceptions distinguished by the modelled code paths. -/
inductive PyError where
  | unpicklingError : PyError
  | eofError : PyError
  | valueError : PyError
deriving DecidableEq

/-- CPython `pickle.dumps` of a `str` at protocol 3 (the default protocol of
the Python 3 versions this Django 1.x-era repository targets):
`PROTO 3`, `BINUNICODE` with a 4-byte little-endian length and the UTF-8
bytes, `BINPUT 0` from memoization, then `STOP`. -/
def pickleDump (s : List Nat) : List Nat :=
  128 :: 3 :: 88 :: (s.length % 256) :: (s.length / 256 % 256) ::
    (s.length / 65536 % 256) :: (s.length / 16777216 % 256) :: (s ++ [113, 0, 46])

/-- One-opcode-per-step unpickling machine.  The fuel drops by one per opcode
and every opcode consumes at least one input byte, so `fuel = input.length`
suffices.  The memo written by `BINPUT` is never read back by the modelled
opcodes, so only its stack-underflow check is kept. -/
def pickleRun : Nat → List Nat → List PickleValue → Except PyError PickleValue
  | _, [], _ => Except.error PyError.eofError
  | 0, _ :: _, _ => Except.error PyError.unpicklingError
  | f + 1, op :: rest, stack =>
    if op = 46 then
      match stack with
      | v :: _ => Except.ok v
      | [] => Except.error PyError.unpicklingError
    else if op = 128 then
      match rest with
      | proto :: rest2 =>
          if proto ≤ 4 then pickleRun f rest2 stack else Except.error PyError.valueError
      | [] => Except.error PyError.unpicklingError
    else if op = 78 then
      pickleRun f rest (PickleValue.noneVal :: stack)
    else if op = 88 then
      match rest with
      | l0 :: l1 :: l2 :: l3 :: rest2 =>
          let n := l0 + 256 * l1 + 65536 * l2 + 16777216 * l3
          if rest2.length < n then Except.error PyError.unpicklingError
          else pickleRun f (rest2.drop n) (PickleValue.str (rest2.take n) :: stack)
      | _ => Except.error PyError.unpicklingError
    else if op = 113 then
      match rest, stack with
      | _ :: rest2, v :: s => pickleRun f rest2 (v :: s)
      | _ :: _, [] => Except.error PyError.unpicklingError
      | [], _ => Except.error PyError.unpicklingError
    else Except.error PyError.unpicklingError

/-- CPython `pickle.load` on a byte sequence. -/
def pickleLoad (input : List Nat) : Except PyError PickleValue :=
  pickleRun input.length input []

/-! ### PIL images and the LSB pipeline -/

/-- A decoded PIL image: width, height and a list of 8-bit bands, each band a
raster-order pixel list of length `width * height` with values below 256. -/
structure PILImage where
  width : Nat
  height : Nat
  bands : List (List Nat)
deriving DecidableEq

/-- PIL `Image.frombytes(mode='L', size=(w,h), data=...)`: raises
`ValueError` (\"not enough image data\") when the buffer is short; surplus
bytes beyond `w*h` are ignored by the raw decoder (Pillow of the
repository's era). -/
def frombytesL (w h : Nat) (data : List Nat) : Except PyError (List Nat) :=
  if data.length < w * h then Except.error PyError.valueError
  else Except.ok (data.take (w * h))

/-- `ImageMath.eval("convert(a&0xFE|b&0x1,'L')", a=red, b=watermark)`:
pointwise over the two equally sized bands. -/
def imageMathEmbed (a b : List Nat) : List Nat :=
  List.zipWith (fun x y => (x &&& 254) ||| (y &&& 1)) a b

/-- `ImageMath.eval("(a&0x1)*0x01", a=red)` followed by `convert('L')` and
`getdata()`: the raster-order least-significant bits of the band. -/
def imageMathExtract (a : List Nat) : List Nat := a.map (fun x => x &&& 1)

/-- `lsb_encode(data, image)` from `items/processors.py` lines 86-97:
pickle the payload, unpack its bits, zero-pad to `W*H` bits (Python's
`[0] * n` is empty for negative `n`, matching truncated `Nat` subtraction),
rebuild a mode-'L' watermark image, split the RGB input, replace the red
band's LSBs and merge.  The three-way unpacking of `image.split()` raises
`ValueError` unless the image has exactly three bands. -/
def lsb_encode (data : List Nat) (image : PILImage) : Except PyError PILImage :=
  let data_bits_list := unpackbits (pickleDump data)
  let padded := data_bits_list ++
    List.replicate (image.width * image.height - data_bits_list.length) 0
  match frombytesL image.width image.height padded with
  | Except.error e => Except.error e
  | Except.ok watermark =>
    match image.bands with
    | [red, green, blue] =>
        Except.ok ⟨image.width, image.height, [imageMathEmbed red watermark, green, blue]⟩
    | _ => Except.error PyError.valueError

/-- `lsb_decode(image)` from `items/processors.py` lines 100-112: split the
image, take the red band's LSBs, `np.packbits` them and `pickle.load` the
result.  Only `UnpicklingError` is caught (returning the empty string, here
`PickleValue.str []`); every other exception propagates to the caller. -/
def lsb_decode (image : PILImage) : Except PyError PickleValue :=
  match image.bands with
  | [red, _, _] =>
    match pickleLoad (packbits (imageMathExtract red)) with
    | Except.ok v => Except.ok v
    | Except.error PyError.unpicklingError => Except.ok (PickleValue.str [])
    | Except.error e => Except.error e
  | _ => Except.error PyError.valueError

/-! ### The watermark scaling heuristic of `add_watermark`

Lines 36-59 of `items/processors.py`, with Python float arithmetic modelled
as exact rational arithmetic. -/

/-- Python `int()` on a rational: truncation toward zero. -/
def pyInt (q : ℚ) : ℤ := if q < 0 then ⌈q⌉ else ⌊q⌋

/-- `temp = temp_watermark / temp_image` with `temp_image = image_x/image_y`
and `temp_watermark = watermark_x/watermark_y`. -/
def temp (image_x image_y watermark_x watermark_y : ℚ) : ℚ :=
  (watermark_x / watermark_y) / (image_x / image_y)

/-- The orientation-dependent fit constant: `1.071` when the watermark is
landscape (`temp_watermark > 1`), else `5.419`. -/
def constant_value (watermark_x watermark_y : ℚ) : ℚ :=
  if watermark_x / watermark_y > 1 then 1071 / 1000 else 5419 / 1000

/-- `scale_size = constant_value * temp`. -/
def scale_size (image_x image_y watermark_x watermark_y : ℚ) : ℚ :=
  constant_value watermark_x watermark_y * temp image_x image_y watermark_x watermark_y

/-- `watermark_scale = max(image_x / (scale_size * watermark_x),
image_y / (scale_size * watermark_y))`. -/
def watermark_scale (image_x image_y watermark_x watermark_y : ℚ) : ℚ :=
  max (image_x / (scale_size image_x image_y watermark_x watermark_y * watermark_x))
    (image_y / (scale_size image_x image_y watermark_x watermark_y * watermark_y))

/-- `new_size = (int(watermark_x * watermark_scale), int(watermark_y * watermark_scale))`. -/
def new_size (image_x image_y watermark_x watermark_y : ℚ) : ℤ × ℤ :=
  (pyInt (watermark_x * watermark_scale image_x image_y watermark_x watermark_y),
   pyInt (watermark_y * watermark_scale image_x image_y watermark_x watermark_y))

/-- `rgba_watermark.convert("L").point(lambda x: min(x, 90))` (line 62):
the alpha-mask point operation over a grayscale band. -/
def watermark_mask (xs : List Nat) : List Nat := xs.map (fun x => min x 90)

/-! ### Definitions written from the spec's words (for refinement claims)

`newSizeSpecRound` transcribes §4.4 of the spec (and claim C7) verbatim:
steps 1-4 agree with the code, step 5 rounds each dimension to the nearest
integer.  `newSizeSpecTrunc` is the same formula with step 5 truncating
toward zero, the candidate amendment. -/

/-- Steps 1-4 of the spec's WatermarkFitter, shared by both spec variants:
`ratio = (Wo/Ho)/(Wb/Hb)`, `fitConstant` by overlay orientation,
`scaleSize = fitConstant * ratio`,
`watermarkScale = max(Wb/(scaleSize*Wo), Hb/(scaleSize*Ho))`. -/
def specWatermarkScale (wb hb wo ho : ℚ) : ℚ :=
  let ratio := (wo / ho) / (wb / hb)
  let fitConstant : ℚ := if wo / ho > 1 then 1071 / 1000 else 5419 / 1000
  let scaleSize := fitConstant * ratio
  max (wb / (scaleSize * wo)) (hb / (scaleSize * ho))

/-- The spec's step 5 as claim C7 states it: each dimension rounded to the
nearest integer. -/
def newSizeSpecRound (wb hb wo ho : ℚ) : ℤ × ℤ :=
  (round (wo * specWatermarkScale wb hb wo ho), round (ho * specWatermarkScale wb hb wo ho))

/-- Step 5 amended to truncation toward zero (Python `int()`). -/
def newSizeSpecTrunc (wb hb wo ho : ℚ) : ℤ × ℤ :=
  (pyInt (wo * specWatermarkScale wb hb wo ho), pyInt (ho * specWatermarkScale wb hb wo ho))

/-! ### Basic bit-level lemmas -/

set_option maxRecDepth 8192 in
theorem bitsToByte_byteToBits : ∀ b < 256, bitsToByte (byteToBits b) = b := by decide

theorem byteToBits_length (b : Nat) : (byteToBits b).length = 8 := by
  simp [byteToBits]

theorem byteToBits_lt_two (b : Nat) : ∀ x ∈ byteToBits b, x < 2 := by
  simp only [byteToBits, List.mem_cons, List.not_mem_nil, or_false]
  rintro x (rfl | rfl | rfl | rfl | rfl | rfl | rfl | rfl) <;> omega

theorem unpackbits_lt_two (bs : List Nat) : ∀ x ∈ unpackbits bs, x < 2 := by
  intro x hx
  rw [unpackbits, List.mem_flatMap] at hx
  obtain ⟨b, _, hxb⟩ := hx
  exact byteToBits_lt_two b x hxb

theorem unpackbits_length (bs : List Nat) : (unpackbits bs).length = 8 * bs.length := by
  induction bs with
  | nil => rfl
  | cons b bs ih =>
      simp only [unpackbits, List.flatMap_cons, List.length_append, byteToBits_length,
        List.length_cons] at *
      omega

theorem land_one_of_lt_two : ∀ b < 2, b &&& 1 = b := by decide

set_option maxRecDepth 8192 in
theorem embed_bit : ∀ x < 256, ∀ b < 2, ((x &&& 254) ||| (b &&& 1)) &&& 1 = b := by decide

set_option maxRecDepth 8192 in
theorem embed_div_two : ∀ x < 256, ∀ b < 2, ((x &&& 254) ||| (b &&& 1)) / 2 = x / 2 := by decide

theorem getD_zipWith (f : Nat → Nat → Nat) (l₁ l₂ : List Nat) (i : Nat)
    (h₁ : i < l₁.length) (h₂ : i < l₂.length) :
    (List.zipWith f l₁ l₂).getD i 0 = f (l₁.getD i 0) (l₂.getD i 0) := by
  induction l₁ generalizing l₂ i with
  | nil => simp at h₁
  | cons a l₁ ih =>
      cases l₂ with
      | nil => simp at h₂
      | cons b l₂ =>
          cases i with
          | zero => rfl
          | succ i =>
              simp only [List.zipWith_cons_cons, List.getD_cons_succ]
              exact ih l₂ i (by simpa using h₁) (by simpa using h₂)

theorem getD_map (f : Nat → Nat) (l : List Nat) (i : Nat) (h : i < l.length) :
    (l.map f).getD i 0 = f (l.getD i 0) := by
  induction l generalizing i with
  | nil => simp at h
  | cons a l ih =>
      cases i with
      | zero => rfl
      | succ i =>
          simp only [List.map_cons, List.getD_cons_succ]
          exact ih i (by simpa using h)

theorem imageMathExtract_imageMathEmbed {r m : List Nat} (hlen : r.length = m.length)
    (hr : ∀ x ∈ r, x < 256) (hm : ∀ b ∈ m, b < 2) :
    imageMathExtract (imageMathEmbed r m) = m := by
  induction r generalizing m with
  | nil =>
      cases m with
      | nil => rfl
      | cons b m => simp at hlen
  | cons a r ih =>
      cases m with
      | nil => simp at hlen
      | cons b m =>
          simp only [imageMathEmbed, imageMathExtract, List.zipWith_cons_cons,
            List.map_cons, List.cons.injEq]
          refine ⟨?_, ?_⟩
          · exact embed_bit a (hr a (by simp)) b (hm b (by simp))
          · exact ih (by simpa using hlen) (fun x hx => hr x (by simp [hx]))
              (fun x hx => hm x (by simp [hx]))

/-! ### packbits lemmas -/

theorem packbitsAux_nil (f : Nat) : packbitsAux f [] = [] := by
  cases f <;> rfl

theorem packbitsAux_fuel : ∀ f₁ f₂ : Nat, ∀ l : List Nat,
    l.length ≤ f₁ → l.length ≤ f₂ → packbitsAux f₁ l = packbitsAux f₂ l := by
  intro f₁
  induction f₁ with
  | zero =>
      intro f₂ l h₁ _
      rw [List.eq_nil_of_length_eq_zero (Nat.le_zero.mp h₁), packbitsAux_nil, packbitsAux_nil]
  | succ f₁ ih =>
      intro f₂ l h₁ h₂
      cases l with
      | nil => rw [packbitsAux_nil, packbitsAux_nil]
      | cons b bits =>
          cases f₂ with
          | zero => simp at h₂
          | succ f₂ =>
              simp only [packbitsAux]
              congr 1
              exact ih f₂ ((b :: bits).drop 8)
                (by simp only [List.length_drop] at *; simp at h₁ ⊢; omega)
                (by simp only [List.length_drop] at *; simp at h₂ ⊢; omega)

theorem packbits_cons8 (c rest : List Nat) (h : c.length = 8) :
    packbits (c ++ rest) = bitsToByte c :: packbits rest := by
  cases c with
  | nil => simp at h
  | cons b c' =>
      have htake := List.take_left (b :: c') (rest ++ List.replicate 8 0)
      have hdrop := List.drop_left (b :: c') rest
      rw [h] at htake hdrop
      rw [packbits, List.cons_append,
        show (b :: (c' ++ rest)).length = (c' ++ rest).length + 1 from rfl]
      simp only [packbitsAux]
      rw [← List.cons_append, List.append_assoc, htake, hdrop]
      congr 1
      rw [packbits]
      exact packbitsAux_fuel _ _ rest (by simp) Nat.le.refl

theorem packbits_unpackbits_append (bs rest : List Nat) (hbs : ∀ b ∈ bs, b < 256) :
    packbits (unpackbits bs ++ rest) = bs ++ packbits rest := by
  induction bs with
  | nil => rfl
  | cons b bs ih =>
      rw [unpackbits, List.flatMap_cons, List.append_assoc, ← unpackbits]
      rw [packbits_cons8 _ _ (byteToBits_length b)]
      rw [bitsToByte_byteToBits b (hbs b (by simp))]
      rw [ih (fun x hx => hbs x (by simp [hx]))]
      rfl

/-! ### Unpickler step lemmas -/

theorem pickleRun_stop (f : Nat) (rest : List Nat) (v : PickleValue) (s : List PickleValue) :
    pickleRun (f + 1) (46 :: rest) (v :: s) = Except.ok v := rfl

theorem pickleRun_proto3 (f : Nat) (rest : List Nat) (s : List PickleValue) :
    pickleRun (f + 1) (128 :: 3 :: rest) s = pickleRun f rest s := rfl

theorem pickleRun_binput (f i : Nat) (rest : List Nat) (v : PickleValue)
    (s : List PickleValue) :
    pickleRun (f + 1) (113 :: i :: rest) (v :: s) = pickleRun f rest (v :: s) := rfl

theorem pickleRun_binunicode (f l0 l1 l2 l3 : Nat) (body rest : List Nat)
    (s : List PickleValue)
    (h : body.length = l0 + 256 * l1 + 65536 * l2 + 16777216 * l3) :
    pickleRun (f + 1) (88 :: l0 :: l1 :: l2 :: l3 :: (body ++ rest)) s =
      pickleRun f rest (PickleValue.str body :: s) := by
  have htake := List.take_left body rest
  have hdrop := List.drop_left body rest
  rw [h] at htake hdrop
  simp only [pickleRun]
  norm_num
  rw [if_neg (by simp [List.length_append]; omega), htake, hdrop]

theorem pickleLoad_dump_append (p junk : List Nat) (hp : p.length < 4294967296) :
    pickleLoad (pickleDump p ++ junk) = Except.ok (PickleValue.str p) := by
  have hlen4 : p.length = p.length % 256 + 256 * (p.length / 256 % 256) +
      65536 * (p.length / 65536 % 256) + 16777216 * (p.length / 16777216 % 256) := by
    omega
  have hL : (pickleDump p ++ junk).length = (p.length + junk.length + 9) + 1 := by
    simp [pickleDump]
    omega
  rw [pickleLoad, hL]
  simp only [pickleDump, List.cons_append, List.append_assoc, List.nil_append]
  rw [pickleRun_proto3]
  rw [show p.length + junk.length + 9 = (p.length + junk.length + 8) + 1 from rfl]
  rw [pickleRun_binunicode _ _ _ _ _ p ((113 : Nat) :: 0 :: 46 :: junk) [] hlen4]
  rw [show p.length + junk.length + 8 = (p.length + junk.length + 7) + 1 from rfl]
  rw [pickleRun_binput]
  rw [show p.length + junk.length + 7 = (p.length + junk.length + 6) + 1 from rfl]
  rw [pickleRun_stop]

theorem pickleDump_lt_256 (p : List Nat) (hp : ∀ x ∈ p, x < 256) :
    ∀ x ∈ pickleDump p, x < 256 := by
  intro x hx
  simp only [pickleDump, List.mem_cons, List.mem_append, List.not_mem_nil, or_false] at hx
  rcases hx with rfl | rfl | rfl | rfl | rfl | rfl | rfl | hx | rfl | rfl | rfl
  all_goals first
    | omega
    | exact Nat.mod_lt _ (by norm_num)
    | exact hp x hx

/-! ### The encode pipeline in normal form -/

/-- The pixel data of the mode-'L' `watermark` image built inside
`lsb_encode`: the payload's pickled bits, zero-padded to (at least) `W*H`
and cut to the image's `W*H` pixels by `Image.frombytes`. -/
def watermarkData (data : List Nat) (W H : Nat) : List Nat :=
  (unpackbits (pickleDump data) ++
    List.replicate (W * H - (unpackbits (pickleDump data)).length) 0).take (W * H)

theorem watermarkData_length (data : List Nat) (W H : Nat) :
    (watermarkData data W H).length = W * H := by
  simp only [watermarkData, List.length_take, List.length_append, List.length_replicate]
  omega

theorem watermarkData_lt_two (data : List Nat) (W H : Nat) :
    ∀ x ∈ watermarkData data W H, x < 2 := by
  intro x hx
  have hx' := List.take_subset _ _ hx
  rcases List.mem_append.mp hx' with hx'' | hx''
  · exact unpackbits_lt_two _ x hx''
  · rw [List.eq_of_mem_replicate hx'']; omega

theorem frombytesL_pad (W H : Nat) (bits : List Nat) :
    frombytesL W H (bits ++ List.replicate (W * H - bits.length) 0) =
      Except.ok ((bits ++ List.replicate (W * H - bits.length) 0).take (W * H)) := by
  rw [frombytesL, if_neg]
  simp only [List.length_append, List.length_replicate, Nat.not_lt]
  omega

theorem lsb_encode_eq (data r g b : List Nat) (W H : Nat) :
    lsb_encode data ⟨W, H, [r, g, b]⟩ =
      Except.ok ⟨W, H, [imageMathEmbed r (watermarkData data W H), g, b]⟩ := by
  simp only [lsb_encode, watermarkData, frombytesL_pad]

/-! ### Claim theorems: the LSB channel cipher -/

/-- C4: for every 8-bit channel and bit sequence of matching length with
values in `{0,1}`, the embedded channel satisfies
`out[i] = (channel[i] & 0xFE) | bits[i]` at every raster position `i`. -/
theorem c4_embed_pointwise (channel bits : List Nat) (i : Nat)
    (hlen : channel.length = bits.length) (hbits : ∀ b ∈ bits, b < 2)
    (hi : i < channel.length) :
    (imageMathEmbed channel bits).getD i 0 = ((channel.getD i 0) &&& 0xFE) ||| bits.getD i 0 := by
  rw [imageMathEmbed, getD_zipWith _ _ _ _ hi (hlen ▸ hi)]
  have hb : bits.getD i 0 ∈ bits := by
    rw [List.getD_eq_getElem?_getD, List.getElem?_eq_getElem (hlen ▸ hi)]
    exact List.getElem_mem _
  rw [land_one_of_lt_two _ (hbits _ hb)]

/-- Witness for C4 at channel `[7, 8]`, bits `[1, 0]`, position `0`. -/
theorem c4_embed_pointwise_witness :
    (imageMathEmbed [7, 8] [1, 0]).getD 0 0 =
      ((([7, 8] : List Nat).getD 0 0) &&& 0xFE) ||| ([1, 0] : List Nat).getD 0 0 :=
  c4_embed_pointwise [7, 8] [1, 0] 0 (by decide) (by decide) (by decide)

/-- C5: extracting the per-pixel LSBs of an embedded channel returns exactly
the embedded bit sequence: `extract (embed channel bits) = bits`. -/
theorem c5_extract_embed_roundtrip (channel bits : List Nat)
    (hlen : channel.length = bits.length)
    (hchan : ∀ x ∈ channel, x < 256) (hbits : ∀ b ∈ bits, b < 2) :
    imageMathExtract (imageMathEmbed channel bits) = bits :=
  imageMathExtract_imageMathEmbed hlen hchan hbits

/-- Witness for C5 at channel `[7, 8, 255]`, bits `[1, 0, 0]`. -/
theorem c5_extract_embed_roundtrip_witness :
    imageMathExtract (imageMathEmbed [7, 8, 255] [1, 0, 0]) = [1, 0, 0] :=
  c5_extract_embed_roundtrip [7, 8, 255] [1, 0, 0] (by decide) (by decide) (by decide)

theorem getD_mem {l : List Nat} {i : Nat} (h : i < l.length) : l.getD i 0 ∈ l := by
  rw [List.getD_eq_getElem?_getD, List.getElem?_eq_getElem h]
  exact List.getElem_mem _

/-! ### Claim theorem: the encode/decode round trip -/

/-- C1: for every RGB image and every payload whose pickled byte length `B`
satisfies `B*8 ≤ W*H`, `lsb_decode (lsb_encode payload image)` returns the
payload. -/
theorem c1_roundtrip (p r g b : List Nat) (W H : Nat)
    (hr : r.length = W * H) (hr256 : ∀ x ∈ r, x < 256)
    (hp : ∀ x ∈ p, x < 256) (hplen : p.length < 4294967296)
    (hcap : (pickleDump p).length * 8 ≤ W * H) :
    (lsb_encode p ⟨W, H, [r, g, b]⟩).bind lsb_decode = Except.ok (PickleValue.str p) := by
  rw [lsb_encode_eq]
  show lsb_decode ⟨W, H, [imageMathEmbed r (watermarkData p W H), g, b]⟩ =
    Except.ok (PickleValue.str p)
  have hextract : imageMathExtract (imageMathEmbed r (watermarkData p W H)) =
      watermarkData p W H :=
    imageMathExtract_imageMathEmbed (by rw [hr, watermarkData_length]) hr256
      (watermarkData_lt_two p W H)
  have hwm : watermarkData p W H = unpackbits (pickleDump p) ++
      List.replicate (W * H - (unpackbits (pickleDump p)).length) 0 := by
    rw [watermarkData]
    apply List.take_of_length_le
    simp only [List.length_append, List.length_replicate, unpackbits_length]
    omega
  simp only [lsb_decode, hextract]
  rw [hwm, packbits_unpackbits_append _ _ (pickleDump_lt_256 p hp)]
  rw [pickleLoad_dump_append p _ hplen]

/-- Witness for C1: an 80-pixel image and the empty payload string (10
pickled bytes, 80 bits). -/
theorem c1_roundtrip_witness :
    (lsb_encode [] ⟨10, 8, [List.replicate 80 7, List.replicate 80 0,
        List.replicate 80 0]⟩).bind lsb_decode = Except.ok (PickleValue.str []) :=
  c1_roundtrip [] (List.replicate 80 7) (List.replicate 80 0) (List.replicate 80 0) 10 8
    (by decide) (by decide) (by decide) (by decide) (by decide)

/-! ### Claim C2: decode on corrupt input -/

/-- C2 counterexample: an image whose red-channel LSBs pack to the single
byte `0x4E` (the `NONE` opcode with no `STOP` after it).  CPython's
`pickle.load` raises `EOFError` there, which is not an `UnpicklingError`,
so `lsb_decode` raises instead of returning the empty default. -/
theorem c2_counterexample :
    lsb_decode ⟨8, 1, [[0, 1, 0, 0, 1, 1, 1, 0], List.replicate 8 0, List.replicate 8 0]⟩ =
        Except.error PyError.eofError ∧
      lsb_decode ⟨8, 1, [[0, 1, 0, 0, 1, 1, 1, 0], List.replicate 8 0, List.replicate 8 0]⟩ ≠
        Except.ok (PickleValue.str []) :=
  ⟨rfl, fun h => Except.noConfusion h⟩

/-- C2 amended: `lsb_decode` returns the empty default exactly on inputs
whose packed LSB bytes make `pickle.load` raise `UnpicklingError`; any other
exception (such as `EOFError` when the byte stream ends at an opcode
boundary) propagates to the caller. -/
theorem c2_amended_default_on_unpickling_error (W H : Nat) (red g b : List Nat)
    (h : pickleLoad (packbits (imageMathExtract red)) =
      Except.error PyError.unpicklingError) :
    lsb_decode ⟨W, H, [red, g, b]⟩ = Except.ok (PickleValue.str []) := by
  simp only [lsb_decode, h]

/-- Witness for the amended C2: all-zero LSBs pack to the byte `0x00`, an
invalid opcode, so `pickle.load` raises `UnpicklingError` and `lsb_decode`
returns the empty default. -/
theorem c2_amended_witness :
    lsb_decode ⟨8, 1, [List.replicate 8 0, List.replicate 8 0, List.replicate 8 0]⟩ =
      Except.ok (PickleValue.str []) :=
  c2_amended_default_on_unpickling_error 8 1 (List.replicate 8 0) (List.replicate 8 0)
    (List.replicate 8 0) (by rfl)

/-! ### Claim theorem: the frame condition of encode -/

/-- C3: `lsb_encode` changes only the least-significant bit of the red
channel: the green and blue bands are returned unchanged and the upper 7
bits of every red pixel are preserved. -/
theorem c3_only_red_lsb (data r g b : List Nat) (W H : Nat)
    (hr : r.length = W * H) (hr256 : ∀ x ∈ r, x < 256) :
    ∃ r', lsb_encode data ⟨W, H, [r, g, b]⟩ = Except.ok ⟨W, H, [r', g, b]⟩ ∧
      r'.length = r.length ∧
      ∀ i, i < r.length → r'.getD i 0 / 2 = r.getD i 0 / 2 := by
  refine ⟨imageMathEmbed r (watermarkData data W H), lsb_encode_eq data r g b W H, ?_, ?_⟩
  · rw [imageMathEmbed, List.length_zipWith, watermarkData_length, hr, Nat.min_self]
  · intro i hi
    have hi' : i < (watermarkData data W H).length := by
      rw [watermarkData_length, ← hr]; exact hi
    rw [imageMathEmbed, getD_zipWith _ _ _ _ hi hi']
    exact embed_div_two _ (hr256 _ (getD_mem hi)) _
      (watermarkData_lt_two data W H _ (getD_mem hi'))

/-- Witness for C3 at a 2-pixel RGB image. -/
theorem c3_only_red_lsb_witness :
    ∃ r', lsb_encode [] ⟨2, 1, [[7, 8], [1, 2], [3, 4]]⟩ =
        Except.ok ⟨2, 1, [r', [1, 2], [3, 4]]⟩ ∧
      r'.length = ([7, 8] : List Nat).length ∧
      ∀ i, i < ([7, 8] : List Nat).length →
        r'.getD i 0 / 2 = ([7, 8] : List Nat).getD i 0 / 2 :=
  c3_only_red_lsb [] [7, 8] [1, 2] [3, 4] 2 1 (by decide) (by decide)

/-! ### Claim theorem: silent truncation of oversized payloads -/

/-- C6: when the pickled payload needs more than `W*H` bits, `lsb_encode`
still succeeds and the red channel's LSBs hold exactly the first `W*H`
payload bits (silent truncation, not an error). -/
theorem c6_truncation (p r g b : List Nat) (W H : Nat)
    (hr : r.length = W * H) (hr256 : ∀ x ∈ r, x < 256)
    (hover : W * H < (pickleDump p).length * 8) :
    lsb_encode p ⟨W, H, [r, g, b]⟩ =
        Except.ok ⟨W, H, [imageMathEmbed r ((unpackbits (pickleDump p)).take (W * H)),
          g, b]⟩ ∧
      imageMathExtract (imageMathEmbed r ((unpackbits (pickleDump p)).take (W * H))) =
        (unpackbits (pickleDump p)).take (W * H) := by
  have hwm : watermarkData p W H = (unpackbits (pickleDump p)).take (W * H) := by
    rw [watermarkData, unpackbits_length]
    rw [show W * H - 8 * (pickleDump p).length = 0 by omega]
    rw [List.replicate_zero, List.append_nil]
  constructor
  · rw [lsb_encode_eq, hwm]
  · exact imageMathExtract_imageMathEmbed
      (by rw [hr, List.length_take, unpackbits_length]; omega) hr256
      (fun x hx => unpackbits_lt_two _ x (List.take_subset _ _ hx))

/-- Witness for C6: a 9-pixel image and a payload that pickles to 10 bytes
(80 bits). -/
theorem c6_truncation_witness :
    lsb_encode [] ⟨3, 3, [List.replicate 9 7, List.replicate 9 0, List.replicate 9 0]⟩ =
        Except.ok ⟨3, 3, [imageMathEmbed (List.replicate 9 7)
          ((unpackbits (pickleDump [])).take (3 * 3)), List.replicate 9 0,
          List.replicate 9 0]⟩ ∧
      imageMathExtract (imageMathEmbed (List.replicate 9 7)
          ((unpackbits (pickleDump [])).take (3 * 3))) =
        (unpackbits (pickleDump [])).take (3 * 3) :=
  c6_truncation [] (List.replicate 9 7) (List.replicate 9 0) (List.replicate 9 0) 3 3
    (by decide) (by decide) (by decide)

/-! ### Claim theorem: the implicit three-band precondition -/

/-- C10: on an image that does not split into exactly three bands both
`lsb_encode` and `lsb_decode` raise the unpacking `ValueError`, and in
`lsb_decode` it is not an `UnpicklingError`, so it propagates to the caller
instead of becoming the empty default. -/
theorem c10_non_rgb_raises (data : List Nat) (img : PILImage)
    (h : img.bands.length ≠ 3) :
    lsb_encode data img = Except.error PyError.valueError ∧
      lsb_decode img = Except.error PyError.valueError := by
  obtain ⟨W, H, bands⟩ := img
  rcases bands with _ | ⟨r, _ | ⟨g, _ | ⟨b, _ | ⟨d, t⟩⟩⟩⟩
  · exact ⟨by simp only [lsb_encode, frombytesL_pad], rfl⟩
  · exact ⟨by simp only [lsb_encode, frombytesL_pad], rfl⟩
  · exact ⟨by simp only [lsb_encode, frombytesL_pad], rfl⟩
  · simp at h
  · exact ⟨by simp only [lsb_encode, frombytesL_pad], rfl⟩

/-- Witness for C10 at a four-band (RGBA-like) image. -/
theorem c10_non_rgb_raises_witness :
    lsb_encode [] ⟨2, 2, [List.replicate 4 0, List.replicate 4 0, List.replicate 4 0,
          List.replicate 4 0]⟩ = Except.error PyError.valueError ∧
      lsb_decode ⟨2, 2, [List.replicate 4 0, List.replicate 4 0, List.replicate 4 0,
          List.replicate 4 0]⟩ = Except.error PyError.valueError :=
  c10_non_rgb_raises []
    ⟨2, 2, [List.replicate 4 0, List.replicate 4 0, List.replicate 4 0,
      List.replicate 4 0]⟩ (by decide)

/-! ### Claim theorem: the alpha-mask cap -/

/-- C8: every pixel of the alpha mask is at most the cap 90, and a source
pixel already below the cap passes through unchanged. -/
theorem c8_alpha_mask_cap (xs : List Nat) :
    (∀ y ∈ watermark_mask xs, y ≤ 90) ∧
      ∀ i, i < xs.length → xs.getD i 0 < 90 →
        (watermark_mask xs).getD i 0 = xs.getD i 0 := by
  constructor
  · intro y hy
    rw [watermark_mask, List.mem_map] at hy
    obtain ⟨x, _, rfl⟩ := hy
    exact min_le_right x 90
  · intro i hi hlt
    rw [watermark_mask, getD_map _ _ _ hi]
    exact min_eq_left (Nat.le_of_lt hlt)

/-- Witness for C8 at the mask source `[5, 200]`: position `0` (value `5`,
below the cap) passes through unchanged. -/
theorem c8_alpha_mask_cap_witness : (watermark_mask [5, 200]).getD 0 0 = 5 :=
  ((c8_alpha_mask_cap [5, 200]).2 0 (by decide) (by decide)).trans rfl

/-! ### Claim C7: the fitter formula and its final rounding step -/

theorem watermark_scale_eq_spec (wb hb wo ho : ℚ) :
    watermark_scale wb hb wo ho = specWatermarkScale wb hb wo ho := rfl

theorem watermark_scale_107 : watermark_scale 107 107 2 1 = 53500 / 1071 := by
  rw [watermark_scale, scale_size, temp, constant_value]
  rw [if_pos (by norm_num : ((2 : ℚ) / 1 > 1))]
  rw [max_eq_right (by norm_num)]
  norm_num

/-- C7 counterexample: at base 107x107 and overlay 2x1 the code computes
`new_size = (99, 49)` via `int()` truncation, while the claimed
round-to-nearest formula gives `(100, 50)`. -/
theorem c7_counterexample :
    new_size 107 107 2 1 = (99, 49) ∧ newSizeSpecRound 107 107 2 1 = (100, 50) ∧
      new_size 107 107 2 1 ≠ newSizeSpecRound 107 107 2 1 := by
  have hcode : new_size 107 107 2 1 = (99, 49) := by
    rw [new_size, watermark_scale_107, Prod.mk.injEq]
    constructor
    · rw [pyInt, if_neg (by norm_num)]
      rw [show (2 : ℚ) * (53500 / 1071) = 107000 / 1071 by norm_num, Int.floor_eq_iff]
      norm_num
    · rw [pyInt, if_neg (by norm_num)]
      rw [show (1 : ℚ) * (53500 / 1071) = 53500 / 1071 by norm_num, Int.floor_eq_iff]
      norm_num
  have hspec : newSizeSpecRound 107 107 2 1 = (100, 50) := by
    rw [newSizeSpecRound, ← watermark_scale_eq_spec, watermark_scale_107, Prod.mk.injEq]
    constructor
    · rw [show (2 : ℚ) * (53500 / 1071) = 107000 / 1071 by norm_num, round_eq,
        Int.floor_eq_iff]
      norm_num
    · rw [show (1 : ℚ) * (53500 / 1071) = 53500 / 1071 by norm_num, round_eq,
        Int.floor_eq_iff]
      norm_num
  exact ⟨hcode, hspec, by rw [hcode, hspec]; decide⟩

/-- C7 amended: the code computes the spec's steps 1-4 exactly, but the final
step truncates each dimension toward zero (Python `int()`) instead of
rounding to the nearest integer. -/
theorem c7_amended_fitter_truncates (wb hb wo ho : ℚ) :
    new_size wb hb wo ho = newSizeSpecTrunc wb hb wo ho := rfl

/-! ### Claim C9: monotonicity of the fitted area -/

theorem watermark_scale_50_100 : watermark_scale 100 100 50 100 = 4000 / 5419 := by
  rw [watermark_scale, scale_size, temp, constant_value]
  rw [if_neg (by norm_num : ¬((50 : ℚ) / 100 > 1))]
  rw [max_eq_left (by norm_num)]
  norm_num

theorem watermark_scale_100_100 : watermark_scale 100 100 100 100 = 1000 / 5419 := by
  rw [watermark_scale, scale_size, temp, constant_value]
  rw [if_neg (by norm_num : ¬((100 : ℚ) / 100 > 1))]
  rw [max_eq_left (by norm_num)]
  norm_num

/-- C9 counterexample: with the base fixed at 100x100, growing the overlay
from 50x100 to 100x100 (both dimensions non-decreasing) shrinks the fitted
area from `36*73 = 2628` to `18*18 = 324`. -/
theorem c9_counterexample :
    (50 : ℚ) ≤ 100 ∧ (100 : ℚ) ≤ 100 ∧
      new_size 100 100 50 100 = (36, 73) ∧
      new_size 100 100 100 100 = (18, 18) ∧
      (new_size 100 100 100 100).1 * (new_size 100 100 100 100).2 <
        (new_size 100 100 50 100).1 * (new_size 100 100 50 100).2 := by
  have h1 : new_size 100 100 50 100 = (36, 73) := by
    rw [new_size, watermark_scale_50_100, Prod.mk.injEq]
    constructor
    · rw [pyInt, if_neg (by norm_num)]
      rw [show (50 : ℚ) * (4000 / 5419) = 200000 / 5419 by norm_num, Int.floor_eq_iff]
      norm_num
    · rw [pyInt, if_neg (by norm_num)]
      rw [show (100 : ℚ) * (4000 / 5419) = 400000 / 5419 by norm_num, Int.floor_eq_iff]
      norm_num
  have h2 : new_size 100 100 100 100 = (18, 18) := by
    rw [new_size, watermark_scale_100_100, Prod.mk.injEq]
    constructor
    all_goals
      rw [pyInt, if_neg (by norm_num)]
      rw [show (100 : ℚ) * (1000 / 5419) = 100000 / 5419 by norm_num, Int.floor_eq_iff]
      norm_num
  exact ⟨by norm_num, by norm_num, h1, h2, by rw [h1, h2]; decide⟩

/-- C9 amended: for a fixed base, the fitter's `new_size` depends only on the
overlay's aspect ratio: scaling the overlay uniformly by any positive factor
leaves `new_size` (hence its area) unchanged, so the area is non-decreasing
along uniform overlay growth; across aspect-ratio changes monotonicity fails
(see the counterexample). -/
theorem c9_amended_scale_invariant (wb hb wo ho l : ℚ) (hl : 0 < l) :
    new_size wb hb (l * wo) (l * ho) = new_size wb hb wo ho := by
  have hl' : l ≠ 0 := ne_of_gt hl
  have htemp : temp wb hb (l * wo) (l * ho) = temp wb hb wo ho := by
    rw [temp, temp, mul_div_mul_left _ _ hl']
  have hconst : constant_value (l * wo) (l * ho) = constant_value wo ho := by
    rw [constant_value, constant_value, mul_div_mul_left _ _ hl']
  have hss : scale_size wb hb (l * wo) (l * ho) = scale_size wb hb wo ho := by
    rw [scale_size, scale_size, htemp, hconst]
  have hws : watermark_scale wb hb (l * wo) (l * ho) =
      watermark_scale wb hb wo ho / l := by
    rw [watermark_scale, watermark_scale, hss]
    have e1 : wb / (scale_size wb hb wo ho * (l * wo)) =
        wb / (scale_size wb hb wo ho * wo) / l := by
      rw [div_div]
      congr 1
      ring
    have e2 : hb / (scale_size wb hb wo ho * (l * ho)) =
        hb / (scale_size wb hb wo ho * ho) / l := by
      rw [div_div]
      congr 1
      ring
    rw [e1, e2, max_div_div_right (le_of_lt hl)]
  have h1 : l * wo * (watermark_scale wb hb wo ho / l) =
      wo * watermark_scale wb hb wo ho := by
    field_simp
    ring
  have h2 : l * ho * (watermark_scale wb hb wo ho / l) =
      ho * watermark_scale wb hb wo ho := by
    field_simp
    ring
  rw [new_size, new_size, hws, h1, h2]

/-- Witness for the amended C9: doubling a 50x100 overlay leaves `new_size`
unchanged. -/
theorem c9_amended_scale_invariant_witness :
    new_size 100 100 (2 * 50) (2 * 100) = new_size 100 100 50 100 :=
  c9_amended_scale_invariant 100 100 50 100 2 (by norm_num)

end WatermarkImages
